import Mathlib

set_option linter.unusedVariables false

/-!
Shallow embedding of the `gophermap` crate (src/lib.rs): a bidirectional
codec for the Gopher directory-listing wire format.  Rust strings are
modelled as `List Char`; byte positions (as produced by `char_indices` and
consumed by string slicing) are modelled explicitly via `Char.utf8Size`.
Fallible operations return `Option`.
-/

/-- Item type for a Gopher directory entry (`enum ItemType` in src/lib.rs). -/
inductive ItemType where
  | File
  | Directory
  | CsoServer
  | Error
  | BinHex
  | DosBinary
  | Uuencoded
  | Search
  | Telnet
  | Binary
  | RedundantServer
  | Tn3270
  | Gif
  | Image
  | Info
  | Other (c : Char)
deriving DecidableEq, Repr

/-- Model of `ItemType::from` in src/lib.rs: parses a char into an Item Type. -/
def ItemType.fromChar (c : Char) : ItemType :=
  match c with
  | '0' => ItemType.File
  | '1' => ItemType.Directory
  | '2' => ItemType.CsoServer
  | '3' => ItemType.Error
  | '4' => ItemType.BinHex
  | '5' => ItemType.DosBinary
  | '6' => ItemType.Uuencoded
  | '7' => ItemType.Search
  | '8' => ItemType.Telnet
  | '9' => ItemType.Binary
  | '+' => ItemType.RedundantServer
  | 'T' => ItemType.Tn3270
  | 'g' => ItemType.Gif
  | 'I' => ItemType.Image
  | 'i' => ItemType.Info
  | c => ItemType.Other c

/-- Model of `ItemType::to_char` in src/lib.rs: turns an Item Type into a char. -/
def ItemType.to_char : ItemType → Char
  | ItemType.File => '0'
  | ItemType.Directory => '1'
  | ItemType.CsoServer => '2'
  | ItemType.Error => '3'
  | ItemType.BinHex => '4'
  | ItemType.DosBinary => '5'
  | ItemType.Uuencoded => '6'
  | ItemType.Search => '7'
  | ItemType.Telnet => '8'
  | ItemType.Binary => '9'
  | ItemType.RedundantServer => '+'
  | ItemType.Tn3270 => 'T'
  | ItemType.Gif => 'g'
  | ItemType.Image => 'I'
  | ItemType.Info => 'i'
  | ItemType.Other c => c

/-- A single entry in a Gopher map (`struct GopherEntry` in src/lib.rs).
The borrowed `&str` fields are modelled as `List Char`; the `u16` port is a
natural number (claims about it carry the bound 65535 explicitly). -/
structure GopherEntry where
  item_type : ItemType
  display_string : List Char
  selector : List Char
  host : List Char
  port : Nat
deriving DecidableEq, Repr

/-- The terminator check at the top of `GopherEntry::from`: two `next_back`
calls must yield `\n` then `\r`; the remaining characters are the content.
Returns `none` exactly when the line does not end in the two-character
sequence CR LF. -/
def stripCRLF (line : List Char) : Option (List Char) :=
  match line.reverse with
  | '\n' :: '\r' :: rest => some rest.reverse
  | _ => none

/-- Rust's `str::split('\t')` on the content: the list of tab-separated
fields.  Splitting the empty string yields one empty field, as in Rust. -/
def splitTab : List Char → List (List Char)
  | [] => [[]]
  | c :: cs =>
    if c = '\t' then [] :: splitTab cs
    else
      match splitTab cs with
      | [] => [[c]]
      | f :: fs => (c :: f) :: fs

/-- Inverse of `splitTab`: interleave the fields with tab characters. -/
def joinTab : List (List Char) → List Char
  | [] => []
  | [f] => f
  | f :: fs => f ++ '\t' :: joinTab fs

/-- Rust's `str::char_indices` with byte offsets, starting at offset `i`. -/
def charIndicesAux (i : Nat) : List Char → List (Nat × Char)
  | [] => []
  | c :: cs => (i, c) :: charIndicesAux (i + c.utf8Size) cs

/-- Rust's `str::char_indices`: each character paired with its byte offset. -/
def charIndices (l : List Char) : List (Nat × Char) := charIndicesAux 0 l

/-- Rust's byte-indexed suffix slice `&part[i..]`: `none` models the panic
that occurs when `i` does not fall on a character boundary (or exceeds the
byte length); otherwise the characters from byte offset `i` on. -/
def byteSlice (l : List Char) (i : Nat) : Option (List Char) :=
  if i = 0 then some l
  else
    match l with
    | [] => none
    | c :: cs => if c.utf8Size ≤ i then byteSlice cs (i - c.utf8Size) else none

/-- Digit phase of `u16::from_str`: one or more ASCII decimal digits whose
value fits in 16 bits (the overflow check of the checked-arithmetic loop). -/
def parseU16Digits (digits : List Char) : Option Nat :=
  if digits.isEmpty then none
  else if digits.all Char.isDigit then
    if digits.foldl (fun a c => a * 10 + (c.toNat - 48)) 0 ≤ 65535 then
      some (digits.foldl (fun a c => a * 10 + (c.toNat - 48)) 0)
    else none
  else none

/-- Model of `u16::from_str` as invoked by `parse::<u16>()` in
`GopherEntry::from`: an optional leading plus sign, then one or more ASCII
decimal digits, and the value must fit in 16 bits.  A leading minus sign is
rejected (the minus character is not a digit), exactly as for Rust's
unsigned parse. -/
def parseU16 (s : List Char) : Option Nat :=
  parseU16Digits (if s.head? = some '+' then s.drop 1 else s)

/-- Model of `GopherEntry::from` in src/lib.rs: parse a line into a directory entry.
The display string is the byte-indexed slice `&part[index..]` where
`(index, _)` is the second element of `part.char_indices()`; the slice is
modelled by `byteSlice`, whose panic case is `none`. -/
def GopherEntry.fromLine (line : List Char) : Option GopherEntry := do
  let content ← stripCRLF line
  let parts := splitTab content
  let t ← content.head?
  let part ← parts.head?
  let pr ← ((charIndices part).drop 1).head?
  let display ← byteSlice part pr.1
  let selector ← (parts.drop 1).head?
  let host ← (parts.drop 2).head?
  let portField ← (parts.drop 3).head?
  let port ← parseU16 portField
  pure ⟨ItemType.fromChar t, display, selector, host, port⟩

/-- The digit characters used when formatting a number in decimal. -/
def digitChar (n : Nat) : Char :=
  match n with
  | 0 => '0'
  | 1 => '1'
  | 2 => '2'
  | 3 => '3'
  | 4 => '4'
  | 5 => '5'
  | 6 => '6'
  | 7 => '7'
  | 8 => '8'
  | 9 => '9'
  | _ => '*'

/-- Fuel-driven digit loop: with fuel larger than `n` this renders `n` in
decimal, most significant digit first. -/
def natToDecimalAux (fuel : Nat) (n : Nat) : List Char :=
  match fuel with
  | 0 => []
  | fuel + 1 =>
    if n < 10 then [digitChar n]
    else natToDecimalAux fuel (n / 10) ++ [digitChar (n % 10)]

/-- Decimal rendering of a nonnegative integer, as Rust's `Display` for
`u16` inside the `write!` format string: most significant digit first, no
sign, no leading zeros (`0` renders as the single digit `0`). -/
def natToDecimal (n : Nat) : List Char := natToDecimalAux (n + 1) n

/-- Model of `GopherEntry::write` in src/lib.rs: the bytes produced by
`write!(buf, "{}{}\t{}\t{}\t{}\r\n", ...)` on the entry's fields. -/
def GopherEntry.write (e : GopherEntry) : List Char :=
  e.item_type.to_char ::
    (e.display_string ++ '\t' ::
      (e.selector ++ '\t' ::
        (e.host ++ '\t' ::
          (natToDecimal e.port ++ ['\r', '\n']))))

/-- Model of `GopherMenu::write_entry` in src/lib.rs: the sink (modelled as the list
of characters written so far) after encoding one entry onto it. -/
def GopherMenu.write_entry (target : List Char) (item_type : ItemType)
    (text selector host : List Char) (port : Nat) : List Char :=
  target ++ GopherEntry.write ⟨item_type, text, selector, host, port⟩

/-- Model of `GopherMenu::info` in src/lib.rs: an Info entry with the fixed
placeholder selector, host and port. -/
def GopherMenu.info (target text : List Char) : List Char :=
  GopherMenu.write_entry target ItemType.Info text ("FAKE".toList) ("fake.host".toList) 1

/-- Model of `GopherMenu::error` in src/lib.rs: an Error entry with the fixed
placeholder selector, host and port. -/
def GopherMenu.error (target text : List Char) : List Char :=
  GopherMenu.write_entry target ItemType.Error text ("FAKE".toList) ("fake.host".toList) 1

/-- Model of `GopherMenu::end` in src/lib.rs: writes the listing terminator. -/
def GopherMenu.menuEnd (target : List Char) : List Char :=
  target ++ (".\r\n".toList)

theorem stripCRLF_append (l : List Char) : stripCRLF (l ++ ['\r', '\n']) = some l := by
  simp [stripCRLF, List.reverse_append]

theorem stripCRLF_eq_some {l c : List Char} (h : stripCRLF l = some c) :
    l = c ++ ['\r', '\n'] := by
  unfold stripCRLF at h
  split at h
  · rename_i rest heq
    have hc : rest.reverse = c := by injection h
    have hl : l = ('\n' :: '\r' :: rest).reverse := by
      rw [← heq, List.reverse_reverse]
    rw [hl, ← hc]
    simp
  · exact absurd h (by simp)

theorem splitTab_ne_nil (l : List Char) : splitTab l ≠ [] := by
  cases l with
  | nil => simp [splitTab]
  | cons c cs =>
    unfold splitTab
    split_ifs
    · simp
    · cases h : splitTab cs <;> simp

theorem joinTab_splitTab (l : List Char) : joinTab (splitTab l) = l := by
  induction l with
  | nil => rfl
  | cons c cs ih =>
    unfold splitTab
    split_ifs with hc
    · subst hc
      cases h : splitTab cs with
      | nil => exact absurd h (splitTab_ne_nil cs)
      | cons f fs =>
        rw [h] at ih
        show '\t' :: joinTab (f :: fs) = '\t' :: cs
        rw [ih]
    · cases h : splitTab cs with
      | nil => exact absurd h (splitTab_ne_nil cs)
      | cons f fs =>
        rw [h] at ih
        cases fs with
        | nil =>
          show c :: f = c :: cs
          rw [show joinTab [f] = f from rfl] at ih
          rw [ih]
        | cons g gs =>
          show (c :: f) ++ '\t' :: joinTab (g :: gs) = c :: cs
          rw [show joinTab (f :: g :: gs) = f ++ '\t' :: joinTab (g :: gs) from rfl] at ih
          simp [← ih]

theorem splitTab_no_tab {l f : List Char} (h : f ∈ splitTab l) : '\t' ∉ f := by
  induction l generalizing f with
  | nil =>
    simp [splitTab] at h
    simp [h]
  | cons c cs ih =>
    unfold splitTab at h
    split_ifs at h with hc
    · rcases List.mem_cons.mp h with h1 | h1
      · simp [h1]
      · exact ih h1
    · rcases hcs : splitTab cs with _ | ⟨f0, fs⟩
      · exact absurd hcs (splitTab_ne_nil cs)
      · rw [hcs] at h
        rcases List.mem_cons.mp h with h1 | h1
        · subst h1
          have hf0 : '\t' ∉ f0 := ih (hcs ▸ List.mem_cons_self f0 fs)
          simp [hc, hf0]
          intro hcontra
          exact hc hcontra.symm
        · exact ih (hcs ▸ List.mem_cons_of_mem f0 h1)

theorem splitTab_of_no_tab {f : List Char} (h : '\t' ∉ f) : splitTab f = [f] := by
  induction f with
  | nil => rfl
  | cons c cs ih =>
    have hc : ¬(c = '\t') := fun e => h (e ▸ List.mem_cons_self c cs)
    have hcs : '\t' ∉ cs := fun e => h (List.mem_cons_of_mem c e)
    unfold splitTab
    rw [if_neg hc, ih hcs]

theorem splitTab_append {f r : List Char} (h : '\t' ∉ f) :
    splitTab (f ++ '\t' :: r) = f :: splitTab r := by
  induction f with
  | nil =>
    show splitTab ('\t' :: r) = [] :: splitTab r
    conv_lhs => rw [splitTab]
    rw [if_pos rfl]
  | cons c cs ih =>
    have hc : ¬(c = '\t') := fun e => h (e ▸ List.mem_cons_self c cs)
    have hcs : '\t' ∉ cs := fun e => h (List.mem_cons_of_mem c e)
    show splitTab (c :: (cs ++ '\t' :: r)) = (c :: cs) :: splitTab r
    conv_lhs => rw [splitTab]
    rw [if_neg hc, ih hcs]

theorem splitTab_joinTab {fs : List (List Char)} (hfs : ∀ f ∈ fs, '\t' ∉ f)
    (hne : fs ≠ []) : splitTab (joinTab fs) = fs := by
  induction fs with
  | nil => exact absurd rfl hne
  | cons f gs ih =>
    cases gs with
    | nil =>
      show splitTab (joinTab [f]) = [f]
      rw [show joinTab [f] = f from rfl]
      exact splitTab_of_no_tab (hfs f (List.mem_cons_self f []))
    | cons g gs2 =>
      show splitTab (f ++ '\t' :: joinTab (g :: gs2)) = f :: g :: gs2
      rw [splitTab_append (hfs f (List.mem_cons_self f _))]
      rw [ih (fun x hx => hfs x (List.mem_cons_of_mem f hx)) (by simp)]

theorem byteSlice_cons_utf8Size (c : Char) (l : List Char) :
    byteSlice (c :: l) c.utf8Size = some l := by
  have hpos := Char.utf8Size_pos c
  unfold byteSlice
  rw [if_neg (by omega)]
  show (if c.utf8Size ≤ c.utf8Size then byteSlice l (c.utf8Size - c.utf8Size) else none) = some l
  rw [if_pos (le_refl _), Nat.sub_self]
  unfold byteSlice
  rw [if_pos rfl]

theorem byteSlice_of_charIndices {part : List Char} {i : Nat} {c : Char}
    (h : ((charIndices part).drop 1).head? = some (i, c)) :
    byteSlice part i = some (part.drop 1) := by
  match part with
  | [] => simp [charIndices, charIndicesAux] at h
  | [c0] => simp [charIndices, charIndicesAux] at h
  | c0 :: c1 :: rest =>
    have hi : i = c0.utf8Size := by
      simp [charIndices, charIndicesAux] at h
      omega
    rw [hi]
    exact byteSlice_cons_utf8Size c0 (c1 :: rest)

theorem head?_of_splitTab {content : List Char} {c : Char} {f0t : List Char}
    {rest : List (List Char)} (h : splitTab content = (c :: f0t) :: rest) :
    content.head? = some c := by
  have hj := joinTab_splitTab content
  rw [h] at hj
  cases rest with
  | nil => rw [← hj]; rfl
  | cons g gs => rw [← hj]; rfl

theorem digitChar_isDigit {d : Nat} (h : d < 10) : (digitChar d).isDigit = true := by
  interval_cases d <;> rfl

theorem digitChar_ne_zero {d : Nat} (h1 : 1 ≤ d) (h2 : d < 10) : digitChar d ≠ '0' := by
  interval_cases d <;> decide

theorem digitChar_toNat {d : Nat} (h : d < 10) : (digitChar d).toNat = 48 + d := by
  interval_cases d <;> rfl

theorem natToDecimalAux_ne_nil (fuel n : Nat) (h : 0 < fuel) :
    natToDecimalAux fuel n ≠ [] := by
  cases fuel with
  | zero => omega
  | succ fuel =>
    unfold natToDecimalAux
    split_ifs <;> simp

theorem natToDecimalAux_digits (fuel : Nat) :
    ∀ n, n < fuel → ∀ c ∈ natToDecimalAux fuel n, c.isDigit = true := by
  induction fuel with
  | zero => intro n h; omega
  | succ fuel ih =>
    intro n h c hc
    unfold natToDecimalAux at hc
    split_ifs at hc with h10
    · simp at hc
      subst hc
      exact digitChar_isDigit h10
    · rcases List.mem_append.mp hc with h1 | h2
      · have hd : n / 10 < n := Nat.div_lt_self (by omega) (by omega)
        exact ih (n / 10) (by omega) c h1
      · simp at h2
        subst h2
        exact digitChar_isDigit (Nat.mod_lt n (by omega))

theorem natToDecimalAux_head (fuel : Nat) :
    ∀ n, n < fuel → 1 ≤ n → (natToDecimalAux fuel n).head? ≠ some '0' := by
  induction fuel with
  | zero => intro n h; omega
  | succ fuel ih =>
    intro n h h1
    unfold natToDecimalAux
    split_ifs with h10
    · simp
      exact digitChar_ne_zero h1 h10
    · have hd : n / 10 < n := Nat.div_lt_self (by omega) (by omega)
      have hd1 : 1 ≤ n / 10 := (Nat.le_div_iff_mul_le (by omega)).mpr (by omega)
      cases ha : natToDecimalAux fuel (n / 10) with
      | nil => exact absurd ha (natToDecimalAux_ne_nil fuel (n / 10) (by omega))
      | cons x xs =>
        have hx := ih (n / 10) (by omega) hd1
        rw [ha] at hx
        simp at hx
        simp [hx]

theorem natToDecimalAux_foldl (fuel : Nat) :
    ∀ n, n < fuel →
      (natToDecimalAux fuel n).foldl (fun a c => a * 10 + (c.toNat - 48)) 0 = n := by
  induction fuel with
  | zero => intro n h; omega
  | succ fuel ih =>
    intro n h
    unfold natToDecimalAux
    split_ifs with h10
    · simp [digitChar_toNat h10]
    · have hd : n / 10 < n := Nat.div_lt_self (by omega) (by omega)
      rw [List.foldl_append, ih (n / 10) (by omega)]
      simp [digitChar_toNat (Nat.mod_lt n (by omega))]
      omega

theorem natToDecimal_ne_nil (n : Nat) : natToDecimal n ≠ [] :=
  natToDecimalAux_ne_nil (n + 1) n (by omega)

theorem natToDecimal_digits (n : Nat) : ∀ c ∈ natToDecimal n, c.isDigit = true :=
  natToDecimalAux_digits (n + 1) n (by omega)

theorem natToDecimal_head (n : Nat) (h : 1 ≤ n) : (natToDecimal n).head? ≠ some '0' :=
  natToDecimalAux_head (n + 1) n (by omega) h

theorem natToDecimal_foldl (n : Nat) :
    (natToDecimal n).foldl (fun a c => a * 10 + (c.toNat - 48)) 0 = n :=
  natToDecimalAux_foldl (n + 1) n (by omega)

theorem natToDecimal_no_tab (n : Nat) : '\t' ∉ natToDecimal n := by
  intro h
  have := natToDecimal_digits n '\t' h
  exact absurd this (by decide)

theorem parseU16_natToDecimal {n : Nat} (h : n ≤ 65535) :
    parseU16 (natToDecimal n) = some n := by
  rcases hnd : natToDecimal n with _ | ⟨c, cs⟩
  · exact absurd hnd (natToDecimal_ne_nil n)
  · have hcdig : c.isDigit = true :=
      natToDecimal_digits n c (by rw [hnd]; exact List.mem_cons_self c cs)
    have hcne : ¬((c :: cs).head? = some '+') := by
      simp only [List.head?_cons, Option.some.injEq]
      intro e
      rw [e] at hcdig
      exact absurd hcdig (by decide)
    have hall : (c :: cs).all Char.isDigit = true := by
      rw [List.all_eq_true]
      intro x hx
      exact natToDecimal_digits n x (by rw [hnd]; exact hx)
    have hfold : (c :: cs).foldl (fun a c => a * 10 + (c.toNat - 48)) 0 = n := by
      rw [← hnd]
      exact natToDecimal_foldl n
    unfold parseU16
    rw [if_neg hcne]
    unfold parseU16Digits
    rw [if_neg (by simp), if_pos hall, hfold, if_pos h]

theorem optionBindSome {α β : Type} (a : α) (f : α → Option β) :
    (some a >>= f) = f a := rfl

theorem fromLine_content (content : List Char) :
    GopherEntry.fromLine (content ++ ['\r', '\n']) =
      match splitTab content with
      | (c :: d :: ds) :: s :: h :: p :: _ =>
        (parseU16 p).map (fun port => ⟨ItemType.fromChar c, d :: ds, s, h, port⟩)
      | _ => none := by
  unfold GopherEntry.fromLine
  rw [stripCRLF_append]
  simp only [optionBindSome]
  rcases hs : splitTab content with _ | ⟨f0, rest⟩
  · exact absurd hs (splitTab_ne_nil content)
  · rcases f0 with _ | ⟨c, f0t⟩
    · cases ht : content.head? <;>
        simp [ht, charIndices, charIndicesAux]
    · rcases f0t with _ | ⟨d, ds⟩
      · cases ht : content.head? <;>
          simp [ht, charIndices, charIndicesAux]
      · have hhead : content.head? = some c := head?_of_splitTab hs
        rcases rest with _ | ⟨s1, rest1⟩
        · simp [hhead, charIndices, charIndicesAux, byteSlice_cons_utf8Size]
        · rcases rest1 with _ | ⟨h1, rest2⟩
          · simp [hhead, charIndices, charIndicesAux, byteSlice_cons_utf8Size]
          · rcases rest2 with _ | ⟨p1, rest3⟩
            · simp [hhead, charIndices, charIndicesAux, byteSlice_cons_utf8Size]
            · rcases hp : parseU16 p1 with _ | v <;>
                simp [hhead, hp, charIndices, charIndicesAux, byteSlice_cons_utf8Size]

example :
    GopherEntry.fromLine ("1Floodgap Home\t/home\tgopher.floodgap.com\t70\r\n".toList) =
      some ⟨ItemType.Directory, "Floodgap Home".toList, "/home".toList,
        "gopher.floodgap.com".toList, 70⟩ := by decide

example : GopherEntry.fromLine ("1\ts\th\t70\r\n".toList) = none := by decide

example : GopherEntry.fromLine ("1ab\ts\th\t70\n".toList) = none := by decide

example :
    GopherEntry.write ⟨ItemType.Directory, "Floodgap Home".toList, "/home".toList,
      "gopher.floodgap.com".toList, 70⟩ =
    "1Floodgap Home\t/home\tgopher.floodgap.com\t70\r\n".toList := by decide

example :
    GopherEntry.fromLine ("1a\r\nb\ts\th\t70\r\n".toList) =
      some ⟨ItemType.Directory, "a\r\nb".toList, "s".toList, "h".toList, 70⟩ := by decide

example : parseU16 ("65535".toList) = some 65535 := by decide
example : parseU16 ("65536".toList) = none := by decide
example : parseU16 ("-1".toList) = none := by decide
example : parseU16 ("+70".toList) = some 70 := by decide

theorem fromLine_none_of_strip_none {line : List Char} (h : stripCRLF line = none) :
    GopherEntry.fromLine line = none := by
  unfold GopherEntry.fromLine
  rw [h]
  rfl

/-- C3: for every input, GopherEntry::from returns None unless the string
ends in the exact two-character sequence CR LF; in particular a bare LF
terminator is rejected and no alternative terminator is accepted. -/
theorem C3_terminator_required (line : List Char) (h : ¬(['\r', '\n'] <:+ line)) :
    GopherEntry.fromLine line = none := by
  cases hc : stripCRLF line with
  | none => exact fromLine_none_of_strip_none hc
  | some c =>
    exact absurd (by rw [stripCRLF_eq_some hc]; exact List.suffix_append c ['\r', '\n']) h

theorem C3_witness :
    ¬(['\r', '\n'] <:+ ("1ab\ts\th\t70\n".toList)) ∧
    GopherEntry.fromLine ("1ab\ts\th\t70\n".toList) = none :=
  ⟨by decide, C3_terminator_required ("1ab\ts\th\t70\n".toList) (by decide)⟩

/-- C5: GopherEntry::write emits exactly the type character, the display
string, tab, selector, tab, host, tab, the port in decimal, then CR LF;
the port rendering is all decimal digits with no sign and no leading zero
(zero itself rendering as the single digit 0), and an Other item type
re-emits its stored character unchanged. -/
theorem C5_write_format (e : GopherEntry) :
    GopherEntry.write e =
      e.item_type.to_char ::
        (e.display_string ++ '\t' ::
          (e.selector ++ '\t' ::
            (e.host ++ '\t' :: (natToDecimal e.port ++ ['\r', '\n'])))) ∧
    (∀ c ∈ natToDecimal e.port, c.isDigit = true) ∧
    (1 ≤ e.port → (natToDecimal e.port).head? ≠ some '0') ∧
    natToDecimal 0 = ['0'] ∧
    (∀ c, (ItemType.Other c).to_char = c) :=
  ⟨rfl, natToDecimal_digits e.port, fun h => natToDecimal_head e.port h,
    rfl, fun _ => rfl⟩

theorem C5_witness :
    GopherEntry.write ⟨ItemType.Other 'Z', "ab".toList, "s".toList, "h".toList, 70⟩ =
      "Zab\ts\th\t70\r\n".toList ∧
    (natToDecimal 70).head? ≠ some '0' :=
  ⟨by
    have h := (C5_write_format ⟨ItemType.Other 'Z', "ab".toList, "s".toList, "h".toList, 70⟩).1
    rw [h]
    decide,
   (C5_write_format ⟨ItemType.Other 'Z', "ab".toList, "s".toList, "h".toList, 70⟩).2.2.1
     (by decide)⟩

/-- C6: ItemType::from realises the fixed character table, maps every
character outside the table to Other of that character (never failing),
and ItemType::to_char inverts it on every character. -/
theorem C6_item_type_table :
    (ItemType.fromChar '0' = ItemType.File ∧
     ItemType.fromChar '1' = ItemType.Directory ∧
     ItemType.fromChar '2' = ItemType.CsoServer ∧
     ItemType.fromChar '3' = ItemType.Error ∧
     ItemType.fromChar '4' = ItemType.BinHex ∧
     ItemType.fromChar '5' = ItemType.DosBinary ∧
     ItemType.fromChar '6' = ItemType.Uuencoded ∧
     ItemType.fromChar '7' = ItemType.Search ∧
     ItemType.fromChar '8' = ItemType.Telnet ∧
     ItemType.fromChar '9' = ItemType.Binary ∧
     ItemType.fromChar '+' = ItemType.RedundantServer ∧
     ItemType.fromChar 'T' = ItemType.Tn3270 ∧
     ItemType.fromChar 'g' = ItemType.Gif ∧
     ItemType.fromChar 'I' = ItemType.Image ∧
     ItemType.fromChar 'i' = ItemType.Info) ∧
    (∀ c : Char, c ∉ ("0123456789+TgIi".toList) → ItemType.fromChar c = ItemType.Other c) ∧
    (∀ c : Char, (ItemType.fromChar c).to_char = c) := by
  refine ⟨by decide, ?_, ?_⟩
  · intro c hc
    unfold ItemType.fromChar
    split
    all_goals simp_all
  · intro c
    unfold ItemType.fromChar
    split
    all_goals simp_all [ItemType.to_char]

theorem C6_witness :
    ItemType.fromChar 'Z' = ItemType.Other 'Z' ∧
    (ItemType.fromChar 'Z').to_char = 'Z' :=
  ⟨C6_item_type_table.2.1 'Z' (by decide), C6_item_type_table.2.2 'Z'⟩

/-- C8: on a fresh sink, info of a, then write_entry of a directory entry,
then end, write exactly the info line with the FAKE placeholders, the
encoded directory entry, and the terminating period line, in call order. -/
theorem C8_menu_sequence (host : List Char) :
    GopherMenu.menuEnd
        (GopherMenu.write_entry (GopherMenu.info [] ("a".toList))
          ItemType.Directory ("b".toList) ("/x".toList) host 70) =
      ("ia\tFAKE\tfake.host\t1\r\n".toList) ++
        (("1b\t/x\t".toList) ++ host ++ ("\t70\r\n".toList)) ++
        (".\r\n".toList) := by with_unfolding_all rfl

/-- C10: the byte index taken from char_indices in GopherEntry::from
always falls on a character boundary, so the display-string slice never
panics and equals dropping the first character; consequently decoding is a
total function that returns Some or None on every input. -/
theorem C10_slice_safety :
    (∀ (part : List Char) (i : Nat) (c : Char),
      ((charIndices part).drop 1).head? = some (i, c) →
      byteSlice part i = some (part.drop 1)) ∧
    (∀ line : List Char,
      GopherEntry.fromLine line = none ∨ ∃ e, GopherEntry.fromLine line = some e) := by
  constructor
  · intro part i c h
    exact byteSlice_of_charIndices h
  · intro line
    cases h : GopherEntry.fromLine line with
    | none => exact Or.inl rfl
    | some e => exact Or.inr ⟨e, rfl⟩

theorem C10_witness :
    byteSlice ['é', 'x'] 2 = some (['é', 'x'].drop 1) :=
  C10_slice_safety.1 ['é', 'x'] 2 'x' (by decide)

theorem fromLine_some_elim {line : List Char} {e : GopherEntry}
    (h : GopherEntry.fromLine line = some e) :
    ∃ content c d ds s hst p rest,
      stripCRLF line = some content ∧
      splitTab content = (c :: d :: ds) :: s :: hst :: p :: rest ∧
      parseU16 p = some e.port ∧
      e.item_type = ItemType.fromChar c ∧
      e.display_string = d :: ds ∧ e.selector = s ∧ e.host = hst := by
  obtain ⟨et, ed, es, eh, ep⟩ := e
  cases hc : stripCRLF line with
  | none => rw [fromLine_none_of_strip_none hc] at h; cases h
  | some content =>
    have hline := stripCRLF_eq_some hc
    rw [hline, fromLine_content] at h
    rcases hs : splitTab content with _ | ⟨f0, rest⟩
    · exact absurd hs (splitTab_ne_nil content)
    · rcases f0 with _ | ⟨c, f0t⟩
      · rw [hs] at h; simp at h
      · rcases f0t with _ | ⟨d, ds⟩
        · rw [hs] at h; simp at h
        · rcases rest with _ | ⟨s1, rest1⟩
          · rw [hs] at h; simp at h
          · rcases rest1 with _ | ⟨h1, rest2⟩
            · rw [hs] at h; simp at h
            · rcases rest2 with _ | ⟨p1, rest3⟩
              · rw [hs] at h; simp at h
              · rw [hs] at h
                have hm : Option.map
                    (fun port =>
                      (⟨ItemType.fromChar c, d :: ds, s1, h1, port⟩ : GopherEntry))
                    (parseU16 p1) =
                    some ⟨et, ed, es, eh, ep⟩ := h
                rcases hp : parseU16 p1 with _ | v
                · rw [hp] at hm; simp at hm
                · rw [hp] at hm
                  simp at hm
                  obtain ⟨h1t, h2d, h3s, h4h, h5p⟩ := hm
                  exact ⟨content, c, d, ds, s1, h1, p1, rest3, rfl, hs,
                    by rw [hp, h5p], h1t.symm, h2d.symm, h3s.symm, h4h.symm⟩

/-- C4: the fourth tab-delimited field is parsed as an unsigned 16-bit
decimal integer and becomes the entry's port; decode returns None when the
field is absent or does not parse; a port of 65535 decodes while 65536 and
-1 fail. -/
theorem C4_port_parsing :
    (∀ (line : List Char) (e : GopherEntry), GopherEntry.fromLine line = some e →
      ∃ content pf, stripCRLF line = some content ∧
        (splitTab content)[3]? = some pf ∧ parseU16 pf = some e.port) ∧
    (∀ (line content pf : List Char), stripCRLF line = some content →
      (splitTab content)[3]? = some pf → parseU16 pf = none →
      GopherEntry.fromLine line = none) ∧
    (∀ (line content : List Char), stripCRLF line = some content →
      (splitTab content)[3]? = none → GopherEntry.fromLine line = none) ∧
    parseU16 ("65535".toList) = some 65535 ∧
    parseU16 ("65536".toList) = none ∧
    parseU16 ("-1".toList) = none ∧
    GopherEntry.fromLine ("1ab\ts\th\t65535\r\n".toList) =
      some ⟨ItemType.Directory, "ab".toList, "s".toList, "h".toList, 65535⟩ ∧
    GopherEntry.fromLine ("1ab\ts\th\t65536\r\n".toList) = none ∧
    GopherEntry.fromLine ("1ab\ts\th\t-1\r\n".toList) = none := by
  refine ⟨?_, ?_, ?_, by decide, by decide, by decide, by decide, by decide, by decide⟩
  · intro line e h
    obtain ⟨content, c, d, ds, s, hst, p, rest, hc, hs, hp, _⟩ := fromLine_some_elim h
    exact ⟨content, p, hc, by rw [hs]; simp, hp⟩
  · intro line content pf hstrip h3 hparse
    rw [stripCRLF_eq_some hstrip, fromLine_content]
    rcases hs : splitTab content with _ | ⟨f0, rest⟩
    · exact absurd hs (splitTab_ne_nil content)
    · rw [hs] at h3
      rcases f0 with _ | ⟨c, f0t⟩
      · rfl
      · rcases f0t with _ | ⟨d, ds⟩
        · rfl
        · rcases rest with _ | ⟨s1, rest1⟩
          · simp at h3
          · rcases rest1 with _ | ⟨h1, rest2⟩
            · simp at h3
            · rcases rest2 with _ | ⟨p1, rest3⟩
              · simp at h3
              · simp at h3
                show Option.map
                    (fun port =>
                      (⟨ItemType.fromChar c, d :: ds, s1, h1, port⟩ : GopherEntry))
                    (parseU16 p1) = none
                rw [h3, hparse]
                rfl
  · intro line content hstrip h3
    rw [stripCRLF_eq_some hstrip, fromLine_content]
    rcases hs : splitTab content with _ | ⟨f0, rest⟩
    · exact absurd hs (splitTab_ne_nil content)
    · rw [hs] at h3
      rcases f0 with _ | ⟨c, f0t⟩
      · rfl
      · rcases f0t with _ | ⟨d, ds⟩
        · rfl
        · rcases rest with _ | ⟨s1, rest1⟩
          · rfl
          · rcases rest1 with _ | ⟨h1, rest2⟩
            · rfl
            · rcases rest2 with _ | ⟨p1, rest3⟩
              · rfl
              · simp at h3

theorem C4_witness :
    stripCRLF ("1ab\ts\th\tXX\r\n".toList) = some ("1ab\ts\th\tXX".toList) ∧
    (splitTab ("1ab\ts\th\tXX".toList))[3]? = some ("XX".toList) ∧
    parseU16 ("XX".toList) = none ∧
    GopherEntry.fromLine ("1ab\ts\th\tXX\r\n".toList) = none :=
  ⟨by decide, by decide, by decide,
    C4_port_parsing.2.1 ("1ab\ts\th\tXX\r\n".toList) ("1ab\ts\th\tXX".toList)
      ("XX".toList) (by decide) (by decide) (by decide)⟩

/-- C9 as stated is false: the decoder strips only the final CR LF, so a
field of a successfully decoded line can still contain the CR LF sequence
in its interior.  Concrete refutation. -/
theorem C9_counterexample :
    GopherEntry.fromLine ("1a\r\nb\ts\th\t70\r\n".toList) =
      some ⟨ItemType.Directory, "a\r\nb".toList, "s".toList, "h".toList, 70⟩ ∧
    ['\r', '\n'] <:+: ("a\r\nb".toList) := by decide

/-- C9 amended: whenever GopherEntry::from returns Some, none of the
display string, selector or host of the entry contains a tab character
(they are tab-split fields); they may however contain CR or LF, since only
the final terminator is stripped. -/
theorem C9_no_tab_in_fields (line : List Char) (e : GopherEntry)
    (h : GopherEntry.fromLine line = some e) :
    '\t' ∉ e.display_string ∧ '\t' ∉ e.selector ∧ '\t' ∉ e.host := by
  obtain ⟨content, c, d, ds, s, hst, p, rest, hc, hs, hp, hit, hd, hsel, hh⟩ :=
    fromLine_some_elim h
  refine ⟨?_, ?_, ?_⟩
  · rw [hd]
    have hmem : (c :: d :: ds) ∈ splitTab content := by
      rw [hs]; exact List.mem_cons_self _ _
    intro hin
    exact splitTab_no_tab hmem (List.mem_cons_of_mem c hin)
  · rw [hsel]
    exact splitTab_no_tab (l := content) (by rw [hs]; simp)
  · rw [hh]
    exact splitTab_no_tab (l := content) (by rw [hs]; simp)

theorem C9_witness :
    '\t' ∉ ("ab".toList) ∧ '\t' ∉ ("s".toList) ∧ '\t' ∉ ("h".toList) :=
  C9_no_tab_in_fields ("1ab\ts\th\t70\r\n".toList)
    ⟨ItemType.Directory, "ab".toList, "s".toList, "h".toList, 70⟩ (by decide)

/-- C2 as stated is false: a line whose first tab-delimited field is the
single character 1 has a non-empty first field, at least four fields and a
parseable port, yet decodes to None, because the decoder demands a second
character in the first field (char_indices().skip(1).next()). -/
theorem C2_counterexample :
    (splitTab ("1\ts\th\t70".toList)).length = 4 ∧
    (splitTab ("1\ts\th\t70".toList)).getD 0 [] ≠ [] ∧
    parseU16 ((splitTab ("1\ts\th\t70".toList)).getD 3 []) = some 70 ∧
    GopherEntry.fromLine ("1\ts\th\t70\r\n".toList) = none := by decide

/-- C2 amended: for a CRLF-terminated line with at least four tab fields
whose fourth field parses as an unsigned 16-bit integer, decode returns
Some exactly when the first field has at least two characters (the type
character plus a non-empty remainder, which becomes the display string);
a first field that is empty or a single character yields None. -/
theorem C2_first_field (content : List Char) (p : Nat)
    (h4 : 4 ≤ (splitTab content).length)
    (hp : parseU16 ((splitTab content).getD 3 []) = some p) :
    match (splitTab content).getD 0 [] with
    | c :: d :: ds =>
      GopherEntry.fromLine (content ++ ['\r', '\n']) =
        some ⟨ItemType.fromChar c, d :: ds,
          (splitTab content).getD 1 [], (splitTab content).getD 2 [], p⟩
    | _ => GopherEntry.fromLine (content ++ ['\r', '\n']) = none := by
  rw [fromLine_content]
  rcases hs : splitTab content with _ | ⟨f0, _ | ⟨f1, _ | ⟨f2, _ | ⟨f3, rest⟩⟩⟩⟩
  · exact absurd hs (splitTab_ne_nil content)
  · rw [hs] at h4; simp at h4
  · rw [hs] at h4; simp at h4
  · rw [hs] at h4; simp at h4
  · rw [hs] at hp
    simp only [List.getD_cons_succ, List.getD_cons_zero] at hp ⊢
    rcases f0 with _ | ⟨c, _ | ⟨d, ds⟩⟩
    · rfl
    · rfl
    · show Option.map
          (fun port =>
            (⟨ItemType.fromChar c, d :: ds, f1, f2, port⟩ : GopherEntry))
          (parseU16 f3) =
        some ⟨ItemType.fromChar c, d :: ds, f1, f2, p⟩
      rw [hp]
      rfl

theorem C2_witness :
    match (splitTab ("1ab\ts\th\t70".toList)).getD 0 [] with
    | c :: d :: ds =>
      GopherEntry.fromLine ("1ab\ts\th\t70".toList ++ ['\r', '\n']) =
        some ⟨ItemType.fromChar c, d :: ds,
          (splitTab ("1ab\ts\th\t70".toList)).getD 1 [],
          (splitTab ("1ab\ts\th\t70".toList)).getD 2 [], 70⟩
    | _ => GopherEntry.fromLine ("1ab\ts\th\t70".toList ++ ['\r', '\n']) = none :=
  C2_first_field ("1ab\ts\th\t70".toList) 70 (by decide) (by decide)

/-- C7: when the content splits into more than four tab-separated fields,
decode ignores the fifth and later fields: the result coincides with
decoding the line truncated to its first four fields, CRLF re-appended. -/
theorem C7_extra_fields (content : List Char)
    (h5 : 5 ≤ (splitTab content).length) :
    GopherEntry.fromLine (content ++ ['\r', '\n']) =
      GopherEntry.fromLine (joinTab ((splitTab content).take 4) ++ ['\r', '\n']) := by
  rw [fromLine_content, fromLine_content]
  rcases hs : splitTab content with _ | ⟨f0, _ | ⟨f1, _ | ⟨f2, _ | ⟨f3, _ | ⟨f4, rest⟩⟩⟩⟩⟩
  · exact absurd hs (splitTab_ne_nil content)
  · rw [hs] at h5; simp at h5
  · rw [hs] at h5; simp at h5
  · rw [hs] at h5; simp at h5
  · rw [hs] at h5; simp at h5
  · have htf : ∀ f ∈ [f0, f1, f2, f3], '\t' ∉ f := by
      intro f hf
      apply splitTab_no_tab (l := content)
      rw [hs]
      simp at hf
      rcases hf with rfl | rfl | rfl | rfl <;> simp
    rw [show ((f0 :: f1 :: f2 :: f3 :: f4 :: rest).take 4) = [f0, f1, f2, f3] from rfl]
    rw [splitTab_joinTab htf (by simp)]
    rcases f0 with _ | ⟨c, _ | ⟨d, ds⟩⟩ <;> rfl

theorem C7_witness :
    GopherEntry.fromLine ("1ab\ts\th\t70\tjunk".toList ++ ['\r', '\n']) =
      GopherEntry.fromLine
        (joinTab ((splitTab ("1ab\ts\th\t70\tjunk".toList)).take 4) ++ ['\r', '\n']) :=
  C7_extra_fields ("1ab\ts\th\t70\tjunk".toList) (by decide)

/-- C1 as stated is false: an entry with an empty display string satisfies
every hypothesis of the claim (tab- and CR/LF-free fields, 16-bit port)
but its encoding's first field is the bare type character, which the
decoder rejects, so the round trip yields None rather than Some. -/
theorem C1_counterexample :
    ('\t' ∉ ([] : List Char) ∧ '\r' ∉ ([] : List Char) ∧ '\n' ∉ ([] : List Char)) ∧
    ('\t' ∉ ("s".toList) ∧ '\r' ∉ ("s".toList) ∧ '\n' ∉ ("s".toList)) ∧
    ('\t' ∉ ("h".toList) ∧ '\r' ∉ ("h".toList) ∧ '\n' ∉ ("h".toList)) ∧
    (70 : Nat) ≤ 65535 ∧
    GopherEntry.fromLine
        (GopherEntry.write ⟨ItemType.File, [], "s".toList, "h".toList, 70⟩) ≠
      some ⟨ItemType.File, [], "s".toList, "h".toList, 70⟩ := by decide

/-- C1 amended: decode(encode e) = Some e for every entry e whose display
string, selector and host are free of tab, CR and LF, whose port is at
most 65535, provided additionally that the display string is non-empty,
that the item type's character is not a tab, and that the item type
survives the character round trip (an Other variant must not carry a
character of the fixed table). -/
theorem C1_round_trip (e : GopherEntry)
    (hdt : '\t' ∉ e.display_string) (hdr : '\r' ∉ e.display_string)
    (hdn : '\n' ∉ e.display_string)
    (hst : '\t' ∉ e.selector) (hsr : '\r' ∉ e.selector) (hsn : '\n' ∉ e.selector)
    (hht : '\t' ∉ e.host) (hhr : '\r' ∉ e.host) (hhn : '\n' ∉ e.host)
    (hne : e.display_string ≠ [])
    (hcanon : ItemType.fromChar e.item_type.to_char = e.item_type)
    (htab : e.item_type.to_char ≠ '\t')
    (hport : e.port ≤ 65535) :
    GopherEntry.fromLine (GopherEntry.write e) = some e := by
  have hw : GopherEntry.write e =
      (e.item_type.to_char :: (e.display_string ++ '\t' ::
        (e.selector ++ '\t' :: (e.host ++ '\t' :: natToDecimal e.port)))) ++
        ['\r', '\n'] := by
    simp [GopherEntry.write, List.append_assoc, List.cons_append]
  have hj : (e.item_type.to_char :: (e.display_string ++ '\t' ::
      (e.selector ++ '\t' :: (e.host ++ '\t' :: natToDecimal e.port)))) =
      joinTab [e.item_type.to_char :: e.display_string, e.selector, e.host,
        natToDecimal e.port] := rfl
  have htf : ∀ f ∈ [e.item_type.to_char :: e.display_string, e.selector, e.host,
      natToDecimal e.port], '\t' ∉ f := by
    intro f hf
    simp at hf
    rcases hf with rfl | rfl | rfl | rfl
    · intro hmem
      rcases List.mem_cons.mp hmem with h1 | h1
      · exact htab h1.symm
      · exact hdt h1
    · exact hst
    · exact hht
    · exact natToDecimal_no_tab e.port
  rw [hw, fromLine_content, hj, splitTab_joinTab htf (by simp)]
  rcases hd : e.display_string with _ | ⟨d0, ds⟩
  · exact absurd hd hne
  · show Option.map
        (fun port =>
          (⟨ItemType.fromChar e.item_type.to_char, d0 :: ds, e.selector, e.host,
            port⟩ : GopherEntry))
        (parseU16 (natToDecimal e.port)) = some e
    rw [parseU16_natToDecimal hport, hcanon]
    show some (⟨e.item_type, d0 :: ds, e.selector, e.host, e.port⟩ : GopherEntry) = some e
    rw [← hd]

theorem C1_witness :
    GopherEntry.fromLine (GopherEntry.write ⟨ItemType.Directory,
        "Floodgap Home".toList, "/home".toList, "gopher.floodgap.com".toList, 70⟩) =
      some ⟨ItemType.Directory, "Floodgap Home".toList, "/home".toList,
        "gopher.floodgap.com".toList, 70⟩ :=
  C1_round_trip
    ⟨ItemType.Directory, "Floodgap Home".toList, "/home".toList,
      "gopher.floodgap.com".toList, 70⟩
    (by decide) (by decide) (by decide) (by decide) (by decide) (by decide)
    (by decide) (by decide) (by decide) (by decide) (by decide) (by decide)
    (by decide)
